import Mathlib

/-!
Shallow embedding of the Baqend webpack plugin (src/index.js).

The plugin synchronizes webpack build assets and a directory of server-side
"Baqend code" to a remote service.  External collaborators (the `anymatch`
glob matcher, the filesystem, and the remote SDK `db`) are passed in as
explicit function parameters: `matchFn` stands for
`anymatch(this.filePattern, assetName)`, `CodeEnv` bundles `fs.readdir`,
`fs.stat`, `fs.readFile`, `this.db[bucket]` truthiness and
`db.code.saveCode`, and `upl` stands for the remote `file.upload` call
(`uploadFile` in the source).  `Option String` results model promise
rejection: `none` is a rejected read / `undefined`, for the remote calls
`none` is success and `some reason` is a rejection carrying `e.reason`.
Sequential JS promise semantics are modelled by explicit result lists in
program order; `Promise.all` never cancels its siblings, so every mapped
item runs to completion in the model exactly as in the source.
-/

/-- The three characters excluded by the character class `[^*{}]` in the
regex `/^([^*{}]*)\//` of `uploadFiles` (src/index.js:154). -/
def isGlobMeta (c : Char) : Bool := c == '*' || c == '{' || c == '}'

/-- `pattern.match(/^([^*{}]*)\//)`, taking the whole match (element 0 of the
match array, bound by the destructuring `const [ prefix ] = ...`).  The
greedy `[^*{}]*` followed by a mandatory `/` matches up to and including the
last `/` that precedes the first glob metacharacter; if no such `/` exists
the regex does not match and the fallback `|| ['']` yields the empty string.
The recursion below computes exactly that: a metacharacter kills the match,
a character before a later successful match is prepended, and a `/` with no
later match closes the match at this position. -/
def jsPrefixList : List Char → List Char
  | [] => []
  | c :: rest =>
    if isGlobMeta c then []
    else
      let r := jsPrefixList rest
      if r = [] then (if c = '/' then ['/'] else []) else c :: r

/-- JS truthiness of the stored `this.filePattern` as used in
`this.filePattern && ...` (src/index.js:154 and 163): absent (`undefined`)
and the empty string are falsy. -/
def patternActive : Option String → Bool
  | none => false
  | some s => s != ""

/-- `const [ prefix ] = (this.filePattern && this.filePattern.match(/^([^*{}]*)\//)) || ['']`
(src/index.js:154).  A falsy `filePattern` yields `''`; otherwise the whole
regex match, or `''` when the regex does not match (`jsPrefixList` already
returns `[]` in that case, which also covers the empty pattern). -/
def strippedPre (filePattern : Option String) : String :=
  match filePattern with
  | none => ""
  | some p => ⟨jsPrefixList p.data⟩

/-- JS `String.prototype.replace` with a plain-string search value: the
first occurrence of the search string anywhere in the subject is replaced
(here always by the empty string, as in `assetName.replace(prefix, '')`,
src/index.js:170). -/
def replaceFirstList (pat : List Char) : List Char → List Char
  | [] => []
  | c :: rest =>
    if pat.isPrefixOf (c :: rest) then List.drop pat.length (c :: rest)
    else c :: replaceFirstList pat rest

/-- `s.replace(pat, '')` for a plain-string `pat`. -/
def jsReplaceFirst (s pat : String) : String := ⟨replaceFirstList pat.data s.data⟩

/-- `const codeTypes = ['module', 'update', 'insert', 'delete', 'validate']`
(src/index.js:6). -/
def codeTypes : List String := ["module", "update", "insert", "delete", "validate"]

/-- `fileName.replace(/\.js$/, '')` (src/index.js:105): the dot is escaped,
so exactly a literal `.js` suffix is removed. -/
def stripDotJs (s : String) : String :=
  if ['.', 'j', 's'].isSuffixOf s.data then ⟨s.data.take (s.data.length - 3)⟩ else s

/-- JS line terminators, which `.` in a regex does not match. -/
def isLineTerm (c : Char) : Bool :=
  c == '\n' || c == '\r' || c == Char.ofNat 0x2028 || c == Char.ofNat 0x2029

/-- `fileName.replace(/.js$/, '')` (src/index.js:130): the dot is NOT
escaped, so any single character (except a line terminator) followed by
`js` at the end of the name is removed. -/
def stripAnyJs (s : String) : String :=
  if 3 ≤ s.data.length ∧ ['j', 's'].isSuffixOf s.data
      ∧ isLineTerm (s.data.getD (s.data.length - 3) '.') = false then
    ⟨s.data.take (s.data.length - 3)⟩
  else s

/-- `path.join(a, b)` as used in the source (all arguments are relative
path fragments without trailing separators, so joining is concatenation
with a single separator). -/
def pathJoin (a b : String) : String := a ++ "/" ++ b

/-- One entry of webpack's `compilation.assets`: the logical asset name and
the descriptor's `existsAt` local path. -/
structure Asset where
  name : String
  existsAt : String
deriving DecidableEq, Repr

/-- The status tag printed for an asset row (src/index.js:164, 173, 175). -/
inductive AssetStatus where
  | uploaded
  | skipped
  | failed
deriving DecidableEq, Repr

/-- One printed row of the asset report: asset name, bucket, status tag and
the remote path (shown only for uploaded rows). -/
structure AssetRow where
  name : String
  bucket : String
  status : AssetStatus
  pathShown : Option String
deriving DecidableEq, Repr

/-- The guard `if (this.filePattern && !anymatch(this.filePattern, assetName))`
(src/index.js:163), negated: `true` when the asset is NOT skipped. -/
def includeAsset (filePattern : Option String) (matchFn : String → Bool) (name : String) : Bool :=
  !(patternActive filePattern && !(matchFn name))

/-- `` const path = `/${this.bucket}/${assetName.replace(prefix, '')}` ``
(src/index.js:170). -/
def remotePathFor (filePattern : Option String) (bucket name : String) : String :=
  "/" ++ bucket ++ "/" ++ jsReplaceFirst name (strippedPre filePattern)

/-- The report row produced for one asset by the mapped closure in
`uploadFiles` (src/index.js:162-177): skipped when the pattern is active
and does not match, otherwise uploaded or failed according to the outcome
of `this.uploadFile(path, existsAt)`. -/
def assetRow (filePattern : Option String) (matchFn : String → Bool) (bucket : String)
    (upl : String → String → Option String) (a : Asset) : AssetRow :=
  if includeAsset filePattern matchFn a.name then
    let p := remotePathFor filePattern bucket a.name
    match upl p a.existsAt with
    | none => ⟨a.name, bucket, AssetStatus.uploaded, some p⟩
    | some _ => ⟨a.name, bucket, AssetStatus.failed, none⟩
  else ⟨a.name, bucket, AssetStatus.skipped, none⟩

/-- The `uploadFile(path, existsAt)` invocation made for one asset, if any
(src/index.js:171): present exactly when the asset is not skipped. -/
def assetCall (filePattern : Option String) (matchFn : String → Bool) (bucket : String)
    (a : Asset) : Option (String × String) :=
  if includeAsset filePattern matchFn a.name then
    some (remotePathFor filePattern bucket a.name, a.existsAt)
  else none

/-- The observable outcome of `uploadFiles` (src/index.js:152-178): the two
column widths of the report header, the per-asset rows in manifest order,
and the `uploadFile` invocations actually made. -/
structure FilesOutcome where
  firstColWidth : Nat
  bucketColWidth : Nat
  rows : List AssetRow
  uploadCalls : List (String × String)
deriving DecidableEq, Repr

/-- `uploadFiles(filesToUpload)` (src/index.js:152-178). -/
def uploadFiles (filePattern : Option String) (matchFn : String → Bool) (bucket : String)
    (upl : String → String → Option String) (files : List Asset) : FilesOutcome :=
  { firstColWidth := files.foldl (fun last a => max last a.name.length) 5
    bucketColWidth := max bucket.length 6
    rows := files.map (assetRow filePattern matchFn bucket upl)
    uploadCalls := files.filterMap (assetCall filePattern matchFn bucket) }

/-- The outcome of an awaited remote/filesystem step: `ok` is a resolved
promise, `err r` a rejected one whose error's `.reason` field is `r`
(`none` when the error has no `reason`, e.g. an `fs` error). -/
inductive CodeRes where
  | ok
  | err (reason : Option String)
deriving DecidableEq, Repr

/-- One `db.code.saveCode(bucket, type, file)` invocation (src/index.js:149). -/
structure SaveCall where
  bucket : String
  codeType : String
  content : String
deriving DecidableEq, Repr

/-- The console lines printed by the code-deployment path
(src/index.js:100, 108, 110, 114, 132). -/
inductive CodeLog where
  | uploadedModule (name : String)
  | failedModule (name : String) (reason : Option String)
  | uploadedHandler (handlerType bucket : String)
  | failedHandlers (dirName : String) (reason : Option String)
  | failedCodeDir (dir : String)
deriving DecidableEq, Repr

/-- The environment of the code-deployment path: `fs.readdir`, `fs.stat`
(projected to `stat.isDirectory()`), `fs.readFile` (all `none` on
rejection), the truthiness of `this.db[bucket]`, and
`db.code.saveCode` (`none` = resolved, `some r` = rejected with reason `r`). -/
structure CodeEnv where
  listDir : String → Option (List String)
  statIsDir : String → Option Bool
  readFile : String → Option String
  dbBuckets : String → Bool
  saveCode : String → String → String → Option String

/-- The observable effect of one `uploadCode` call: the file reads
attempted, the `saveCode` invocations made, and the settled result. -/
structure CodeOut where
  reads : List String
  calls : List SaveCall
  result : CodeRes
deriving DecidableEq, Repr

/-- `uploadCode(bucket, type = 'module')` (src/index.js:142-150): read the
module file (`codeDir/bucket.js`) or the handler file
(`codeDir/bucket/type.js`); a failed read rejects with an `fs` error (whose
`.reason` is `undefined`); a `type` outside `codeTypes` returns without
calling `saveCode`; otherwise `saveCode(bucket, type, file)` is invoked and
its outcome is the result. -/
def uploadCode (env : CodeEnv) (codeDir bucket type : String) : CodeOut :=
  let filename := if type == "module" then pathJoin codeDir (bucket ++ ".js")
                  else pathJoin (pathJoin codeDir bucket) (type ++ ".js")
  match env.readFile filename with
  | none => ⟨[filename], [], CodeRes.err none⟩
  | some file =>
    if codeTypes.contains type then
      match env.saveCode bucket type file with
      | none => ⟨[filename], [⟨bucket, type, file⟩], CodeRes.ok⟩
      | some r => ⟨[filename], [⟨bucket, type, file⟩], CodeRes.err (some r)⟩
    else ⟨[filename], [], CodeRes.ok⟩

/-- One mapped iteration of `uploadHandler`'s `Promise.all`
(src/index.js:129-133): derive the handler type with the unescaped-dot
regex, run `uploadCode`, and on success print the per-handler line.  A
rejection produces no line here; it propagates to `Promise.all`. -/
def handlerFileStep (env : CodeEnv) (codeDir bucket fileName : String) :
    CodeOut × Option CodeLog :=
  let t := stripAnyJs fileName
  let o := uploadCode env codeDir bucket t
  match o.result with
  | CodeRes.ok => (o, some (CodeLog.uploadedHandler t bucket))
  | CodeRes.err _ => (o, none)

/-- `Promise.all` settles to the first rejection, if any; the sibling
promises still run to completion. -/
def firstFailure : List CodeRes → CodeRes
  | [] => CodeRes.ok
  | CodeRes.ok :: rest => firstFailure rest
  | CodeRes.err r :: _ => CodeRes.err r

/-- The observable effect of `uploadHandler`: reads, `saveCode` calls, the
success lines printed, and the settled result of its `Promise.all`. -/
structure HandlerOut where
  reads : List String
  calls : List SaveCall
  logs : List CodeLog
  result : CodeRes
deriving DecidableEq, Repr

/-- `uploadHandler(bucket)` (src/index.js:123-134): a falsy `db[bucket]`
returns immediately; listing `codeDir/bucket` may reject (an `fs` error,
`.reason` undefined); otherwise every handler file is processed (none is
cancelled by a sibling's rejection) and the result is that of the first
rejection, if any. -/
def uploadHandler (env : CodeEnv) (codeDir bucket : String) : HandlerOut :=
  if env.dbBuckets bucket = false then ⟨[], [], [], CodeRes.ok⟩
  else
    match env.listDir (pathJoin codeDir bucket) with
    | none => ⟨[], [], [], CodeRes.err none⟩
    | some fileNames =>
      let outs := fileNames.map (handlerFileStep env codeDir bucket)
      { reads := (outs.map (fun o => o.1.reads)).flatten
        calls := (outs.map (fun o => o.1.calls)).flatten
        logs := outs.filterMap (fun o => o.2)
        result := firstFailure (outs.map (fun o => o.1.result)) }

/-- The observable effect of one mapped iteration of `uploadCodeDir`'s
`Promise.all` (src/index.js:94-112).  `uncaught` marks the only rejection
that can escape the iteration: a failed `readStat`, which sits outside both
inner `try` blocks. -/
structure EntryOut where
  reads : List String
  calls : List SaveCall
  logs : List CodeLog
  uncaught : Bool
deriving DecidableEq, Repr

/-- One directory entry of `uploadCodeDir` (src/index.js:94-112): stat the
entry; a directory is handed to `uploadHandler` with its own catch printing
the aggregate handler-failure line; a plain file is stripped of a literal
`.js` suffix and handed to `uploadCode` with a catch printing the
per-module success or failure line. -/
def processEntry (env : CodeEnv) (codeDir fileName : String) : EntryOut :=
  match env.statIsDir (pathJoin codeDir fileName) with
  | none => ⟨[], [], [], true⟩
  | some true =>
    let h := uploadHandler env codeDir fileName
    match h.result with
    | CodeRes.ok => ⟨h.reads, h.calls, h.logs, false⟩
    | CodeRes.err r => ⟨h.reads, h.calls, h.logs ++ [CodeLog.failedHandlers fileName r], false⟩
  | some false =>
    let m := stripDotJs fileName
    let o := uploadCode env codeDir m "module"
    match o.result with
    | CodeRes.ok => ⟨o.reads, o.calls, [CodeLog.uploadedModule m], false⟩
    | CodeRes.err r => ⟨o.reads, o.calls, [CodeLog.failedModule m r], false⟩

/-- The observable effect of `uploadCodeDir`: reads, `saveCode` calls,
console lines, and whether the promise it returns rejected. -/
structure CodeDirOut where
  reads : List String
  calls : List SaveCall
  logs : List CodeLog
  threw : Bool
deriving DecidableEq, Repr

/-- `uploadCodeDir()` (src/index.js:90-116): the `readDirectory` call is
awaited inside the `try`, so its rejection is caught and reported as the
single aggregate failure line.  The entries' `Promise.all`, however, is
returned WITHOUT `await`, so its rejection — possible only through an
entry's `readStat` rejection, which sits outside both inner `try` blocks —
escapes the `catch`: no aggregate line is printed and the promise returned
by `uploadCodeDir()` rejects (`threw`).  The sibling entries still run to
completion either way. -/
def uploadCodeDir (env : CodeEnv) (codeDir : String) : CodeDirOut :=
  match env.listDir codeDir with
  | none => ⟨[], [], [CodeLog.failedCodeDir codeDir], false⟩
  | some files =>
    let outs := files.map (processEntry env codeDir)
    { reads := (outs.map EntryOut.reads).flatten
      calls := (outs.map EntryOut.calls).flatten
      logs := (outs.map EntryOut.logs).flatten
      threw := outs.any EntryOut.uncaught }

/-- A JS constructor-argument value as far as the constructor's truthiness
tests distinguish them: `undefined` (absent), the literal `false`, or a
string. -/
inductive JsArg where
  | undef
  | fls
  | str (s : String)
deriving DecidableEq, Repr

/-- `this.bucket = bucket === false ? bucket : (bucket || 'www')`
(src/index.js:48): `none` models the disabled (`false`) state. -/
def mkBucket : JsArg → Option String
  | JsArg.fls => none
  | JsArg.undef => some "www"
  | JsArg.str s => some (if s = "" then "www" else s)

/-- `this.codeDir = codeDir || false` (src/index.js:50): `none` models the
disabled (`false`) state. -/
def mkCodeDir : JsArg → Option String
  | JsArg.fls => none
  | JsArg.undef => none
  | JsArg.str s => if s = "" then none else some s

/-- The plugin's immutable configuration after the constructor ran
(src/index.js:46-54). -/
structure Config where
  app : String
  bucket : Option String
  filePattern : Option String
  codeDir : Option String

/-- The constructor `BaqendWebpackPlugin({ app, bucket, filePattern, codeDir })`. -/
def mkConfig (app : String) (bucketArg : JsArg) (filePattern : Option String)
    (codeDirArg : JsArg) : Config :=
  ⟨app, mkBucket bucketArg, filePattern, mkCodeDir codeDirArg⟩

/-- The run-level trace of a deployment: the readiness gate's outcome
followed by the transfer calls in program order. -/
inductive Event where
  | connReady
  | connFailed
  | save (c : SaveCall)
  | upload (remotePath localPath : String)
deriving DecidableEq, Repr

/-- Whether an event is a transfer (a `saveCode` or `uploadFile` call). -/
def Event.isTransfer : Event → Bool
  | Event.save _ => true
  | Event.upload _ _ => true
  | _ => false

/-- The observable outcome of `executeDeployment`: whether the returned
promise rejected (`threw`), the ordered run trace, the transfer calls, the
code-phase console lines, and the asset report (absent when the asset phase
did not run). -/
structure RunOutcome where
  threw : Bool
  events : List Event
  saveCalls : List SaveCall
  uploadCalls : List (String × String)
  codeLogs : List CodeLog
  assetTable : Option FilesOutcome

/-- `executeDeployment({compilation: {assets}, hash})` (src/index.js:74-88):
`await this.isConnected` first — a rejected connection promise rejects the
whole deployment before any transfer, surfacing once for the run (`connOk`
models whether `login` resolved).  Then the code phase runs when
`this.codeDir !== false`; since `await this.uploadCodeDir()` re-raises a
rejection of the promise `uploadCodeDir` returned, a code phase that threw
rejects the deployment and the asset phase is skipped.  Otherwise the asset
phase runs when `this.bucket !== false`. -/
def executeDeployment (cfg : Config) (env : CodeEnv) (matchFn : String → Bool)
    (upl : String → String → Option String) (assets : List Asset) (connOk : Bool) :
    RunOutcome :=
  if connOk = false then ⟨true, [Event.connFailed], [], [], [], none⟩
  else
    let codeOut : CodeDirOut := match cfg.codeDir with
      | none => ⟨[], [], [], false⟩
      | some cd => uploadCodeDir env cd
    let fileOut : Option FilesOutcome := match cfg.bucket with
      | none => none
      | some b =>
        if codeOut.threw = true then none
        else some (uploadFiles cfg.filePattern matchFn b upl assets)
    let upCalls := match fileOut with | none => [] | some fo => fo.uploadCalls
    { threw := codeOut.threw
      events := Event.connReady ::
        (codeOut.calls.map Event.save ++ upCalls.map (fun pc => Event.upload pc.1 pc.2))
      saveCalls := codeOut.calls
      uploadCalls := upCalls
      codeLogs := codeOut.logs
      assetTable := fileOut }

/-- `filterMap` of a guarded `some` is `map` after `filter`. -/
theorem filterMap_guard {α β : Type} (p : α → Bool) (g : α → β) (l : List α) :
    l.filterMap (fun a => if p a then some (g a) else none) = (l.filter p).map g := by
  induction l with
  | nil => rfl
  | cons a t ih =>
    by_cases h : p a = true
    · simp [List.filterMap_cons, List.filter_cons, h, ih]
    · simp [List.filterMap_cons, List.filter_cons, h, ih]

/-- The skip guard, rephrased: an asset is included exactly when no pattern
is active or the matcher accepts the name. -/
theorem includeAsset_eq (fp : Option String) (matchFn : String → Bool) (n : String) :
    includeAsset fp matchFn n = (!(patternActive fp) || matchFn n) := by
  unfold includeAsset
  cases patternActive fp <;> cases matchFn n <;> rfl

/-- C1: for every asset manifest and configured glob pattern, `uploadFiles`
attempts an upload for an asset iff the asset name matches the pattern (or
no pattern is configured): the `uploadFile` invocations are exactly those of
the matching assets, and every non-matching asset appears in the report with
status `skipped` (so `uploadFile` is never invoked for it). -/
theorem C1_upload_iff_match (fp : Option String) (matchFn : String → Bool) (bucket : String)
    (upl : String → String → Option String) (files : List Asset) :
    (uploadFiles fp matchFn bucket upl files).uploadCalls
      = (files.filter (fun a => !(patternActive fp) || matchFn a.name)).map
          (fun a => (remotePathFor fp bucket a.name, a.existsAt)) ∧
    ∀ a ∈ files, patternActive fp = true → matchFn a.name = false →
      AssetRow.mk a.name bucket AssetStatus.skipped none
        ∈ (uploadFiles fp matchFn bucket upl files).rows := by
  constructor
  · show files.filterMap (assetCall fp matchFn bucket) = _
    have hfn : ∀ a : Asset, assetCall fp matchFn bucket a
        = if (!(patternActive fp) || matchFn a.name) then
            some (remotePathFor fp bucket a.name, a.existsAt) else none := by
      intro a; rw [assetCall, includeAsset_eq]
    calc files.filterMap (assetCall fp matchFn bucket)
        = files.filterMap (fun a => if (!(patternActive fp) || matchFn a.name) then
            some (remotePathFor fp bucket a.name, a.existsAt) else none) := by
          exact List.filterMap_congr (fun a _ => hfn a)
      _ = _ := filterMap_guard _ _ _
  · intro a ha h1 h2
    have hrow : assetRow fp matchFn bucket upl a
        = AssetRow.mk a.name bucket AssetStatus.skipped none := by
      have : includeAsset fp matchFn a.name = false := by
        rw [includeAsset_eq, h1, h2]; rfl
      simp [assetRow, this]
    show _ ∈ files.map (assetRow fp matchFn bucket upl)
    exact hrow ▸ List.mem_map_of_mem _ ha

/-- Witness for C1 at a concrete manifest: pattern `a/*`, matcher accepting
only `a/x`; the non-matching asset `b` is reported as skipped. -/
theorem C1_upload_iff_match_witness :
    AssetRow.mk "b" "www" AssetStatus.skipped none
      ∈ (uploadFiles (some "a/*") (fun n => n == "a/x") "www" (fun _ _ => none)
          [⟨"a/x", "p"⟩, ⟨"b", "q"⟩]).rows :=
  (C1_upload_iff_match (some "a/*") (fun n => n == "a/x") "www" (fun _ _ => none)
      [⟨"a/x", "p"⟩, ⟨"b", "q"⟩]).2 ⟨"b", "q"⟩ (by decide) (by decide) (by decide)

/-- When the search string is a prefix of the subject, JS `replace` removes
exactly the leading occurrence. -/
theorem replaceFirst_of_isPre (pat s : List Char) (h : pat.isPrefixOf s = true) :
    replaceFirstList pat s = s.drop pat.length := by
  cases s with
  | nil =>
    cases pat with
    | nil => rfl
    | cons c cs => simp [List.isPrefixOf] at h
  | cons c rest => simp [replaceFirstList, h]

/-- JS `replace` with a plain-string search value removes the FIRST
occurrence of the search string, wherever it sits in the subject. -/
theorem replaceFirst_firstOcc (pat : List Char) (hne : pat ≠ []) :
    ∀ (s : List Char) (k : Nat), pat.isPrefixOf (s.drop k) = true →
      (∀ j, j < k → pat.isPrefixOf (s.drop j) = false) →
      replaceFirstList pat s = s.take k ++ s.drop (k + pat.length) := by
  intro s
  induction s with
  | nil =>
    intro k h _
    cases pat with
    | nil => exact absurd rfl hne
    | cons c cs => simp [List.isPrefixOf] at h
  | cons c rest ih =>
    intro k h hmin
    cases k with
    | zero =>
      simp only [List.drop_zero] at h
      rw [replaceFirst_of_isPre pat _ h]
      simp
    | succ k =>
      have h0 : pat.isPrefixOf (c :: rest) = false := by
        have := hmin 0 (Nat.succ_pos k)
        simpa using this
      have hrest : pat.isPrefixOf (rest.drop k) = true := by
        simpa [List.drop_succ_cons] using h
      have hminr : ∀ j, j < k → pat.isPrefixOf (rest.drop j) = false := by
        intro j hj
        have := hmin (j + 1) (Nat.succ_lt_succ hj)
        simpa [List.drop_succ_cons] using this
      have hr := ih k hrest hminr
      simp only [replaceFirstList, h0, Bool.false_eq_true, if_false, hr,
        List.take_succ_cons, Nat.succ_add, List.drop_succ_cons, List.cons_append]

/-- C2 counterexample: with the configured pattern `?/**` the computed
strip target is `?/`; the asset name `a/?/b` (which matches `?/**` under
glob semantics, `?` matching the single segment `a` and `**` the rest) does
NOT literally start with `?/` but contains it at position 2, and the remote
path passed to `uploadFile` is `/www/a/b` — the inner occurrence has been
removed, contradicting the claim that it would be left intact (which would
give `/www/a/?/b`). -/
theorem C2_remote_path_cex :
    strippedPre (some "?/**") = "?/" ∧
    ("?/".data.isPrefixOf "a/?/b".data) = false ∧
    ("?/".data.isPrefixOf ("a/?/b".data.drop 2)) = true ∧
    (uploadFiles (some "?/**") (fun n => n == "a/?/b") "www" (fun _ _ => none)
        [⟨"a/?/b", "local/f"⟩]).uploadCalls = [("/www/a/b", "local/f")] ∧
    ("/www/a/b" : String) ≠ "/" ++ "www" ++ "/" ++ "a/?/b" := by
  refine ⟨by decide, by decide, by decide, by decide, by decide⟩

/-- C2 (amended): for every asset passed to `uploadFile`, the remote path is
`/` + bucket + `/` + the asset name with the FIRST literal occurrence of
the computed prefix removed — the leading occurrence when the prefix
prefixes the name (that half of the original claim holds), but an
occurrence elsewhere in the name is removed too when the prefix does not
prefix the name. -/
theorem C2_remote_path (fp : Option String) (matchFn : String → Bool) (bucket : String)
    (a : Asset) (p : String)
    (hcall : assetCall fp matchFn bucket a = some (p, a.existsAt)) :
    ((strippedPre fp).data.isPrefixOf a.name.data = true →
      p = "/" ++ bucket ++ "/" ++ String.mk (a.name.data.drop (strippedPre fp).data.length)) ∧
    (∀ k, (strippedPre fp).data ≠ [] →
      (strippedPre fp).data.isPrefixOf (a.name.data.drop k) = true →
      (∀ j, j < k → (strippedPre fp).data.isPrefixOf (a.name.data.drop j) = false) →
      p = "/" ++ bucket ++ "/"
          ++ String.mk (a.name.data.take k ++ a.name.data.drop (k + (strippedPre fp).data.length))) := by
  have hp : p = remotePathFor fp bucket a.name := by
    by_cases hinc : includeAsset fp matchFn a.name = true
    · simp only [assetCall, hinc, if_true, Option.some.injEq, Prod.mk.injEq] at hcall
      exact hcall.1.symm
    · simp [assetCall, hinc] at hcall
  subst hp
  constructor
  · intro hpre
    unfold remotePathFor jsReplaceFirst
    rw [replaceFirst_of_isPre _ _ hpre]
  · intro k hne hocc hmin
    unfold remotePathFor jsReplaceFirst
    rw [replaceFirst_firstOcc _ hne _ k hocc hmin]

/-- Witness for C2 at a concrete asset: pattern `dist/**` strips the
leading `dist/` from `dist/index.html`. -/
theorem C2_remote_path_witness :
    ("/www/index.html" : String) = "/" ++ "www" ++ "/"
      ++ String.mk ("dist/index.html".data.drop (strippedPre (some "dist/**")).data.length) :=
  (C2_remote_path (some "dist/**") (fun _ => true) "www" ⟨"dist/index.html", "f"⟩
      "/www/index.html" (by decide)).1 (by decide)

/-- A candidate strip target: a nonempty prefix of the pattern that ends in
`/` and contains no glob metacharacter. -/
def ValidSlashPre (q pat : List Char) : Prop :=
  q ≠ [] ∧ q.isPrefixOf pat = true ∧ (∀ c ∈ q, isGlobMeta c = false) ∧ q.getLast? = some '/'

instance (q pat : List Char) : Decidable (ValidSlashPre q pat) :=
  inferInstanceAs (Decidable (_ ∧ _ ∧ _ ∧ _))

/-- The computed strip target is a prefix of the pattern. -/
theorem jsPre_isPre : ∀ l : List Char, (jsPrefixList l).isPrefixOf l = true := by
  intro l
  induction l with
  | nil => rfl
  | cons c rest ih =>
    by_cases hm : isGlobMeta c = true
    · simp [jsPrefixList, hm, List.isPrefixOf]
    · by_cases hr : jsPrefixList rest = []
      · by_cases hc : c = '/'
        · simp [jsPrefixList, hm, hr, hc, List.isPrefixOf]
        · simp [jsPrefixList, hm, hr, hc, List.isPrefixOf]
      · simp [jsPrefixList, hm, hr, List.isPrefixOf, ih]

/-- The computed strip target contains no glob metacharacter. -/
theorem jsPre_nonmeta : ∀ (l : List Char) (c : Char), c ∈ jsPrefixList l → isGlobMeta c = false := by
  intro l
  induction l with
  | nil => intro c hc; simp [jsPrefixList] at hc
  | cons a rest ih =>
    intro c hc
    by_cases hm : isGlobMeta a = true
    · simp [jsPrefixList, hm] at hc
    · by_cases hr : jsPrefixList rest = []
      · by_cases ha : a = '/'
        · simp [jsPrefixList, hm, hr, ha] at hc
          simp [hc, isGlobMeta]
        · simp [jsPrefixList, hm, hr, ha] at hc
      · simp only [jsPrefixList, hm, Bool.false_eq_true, if_false, hr, List.mem_cons] at hc
        rcases hc with hc | hc
        · subst hc; simpa using hm
        · exact ih c hc

/-- The computed strip target, when nonempty, ends in `/`. -/
theorem jsPre_last : ∀ l : List Char, jsPrefixList l ≠ [] → (jsPrefixList l).getLast? = some '/' := by
  intro l
  induction l with
  | nil => intro h; simp [jsPrefixList] at h
  | cons a rest ih =>
    intro h
    by_cases hm : isGlobMeta a = true
    · simp [jsPrefixList, hm] at h
    · by_cases hr : jsPrefixList rest = []
      · by_cases ha : a = '/'
        · simp only [jsPrefixList, hm, Bool.false_eq_true, if_false, hr, if_true, ha]
          decide
        · simp [jsPrefixList, hm, hr, ha] at h
      · have hrw : jsPrefixList (a :: rest) = a :: jsPrefixList rest := by
          simp [jsPrefixList, hm, hr]
        rw [hrw]
        rcases List.exists_cons_of_ne_nil hr with ⟨b, t, hbt⟩
        rw [hbt, List.getLast?_cons_cons, ← hbt]
        exact ih hr

/-- The computed strip target is the longest candidate: any nonempty
metacharacter-free slash-terminated prefix of the pattern is at most as
long. -/
theorem jsPre_max : ∀ (l q : List Char), ValidSlashPre q l → q.length ≤ (jsPrefixList l).length := by
  intro l
  induction l with
  | nil =>
    rintro q ⟨hq, hpre, -, -⟩
    cases q with
    | nil => exact absurd rfl hq
    | cons q0 qs => simp [List.isPrefixOf] at hpre
  | cons c rest ih =>
    rintro q ⟨hq, hpre, hmeta, hlast⟩
    cases q with
    | nil => exact absurd rfl hq
    | cons q0 qs =>
      simp only [List.isPrefixOf, Bool.and_eq_true, beq_iff_eq] at hpre
      obtain ⟨hq0, hqs⟩ := hpre
      subst hq0
      have hcm : isGlobMeta q0 = false := hmeta q0 (List.mem_cons_self _ _)
      cases qs with
      | nil =>
        have hc : q0 = '/' := by simpa using hlast
        by_cases hr : jsPrefixList rest = []
        · simp only [jsPrefixList, hcm, Bool.false_eq_true, if_false, hr, if_true, hc]
          decide
        · simp only [jsPrefixList, hcm, Bool.false_eq_true, if_false, hr]
          simp
      | cons q1 qt =>
        have hlast2 : (q1 :: qt).getLast? = some '/' := by
          rw [List.getLast?_cons_cons] at hlast; exact hlast
        have hv : ValidSlashPre (q1 :: qt) rest :=
          ⟨by simp, hqs, fun x hx => hmeta x (List.mem_cons_of_mem _ hx), hlast2⟩
        have hlen := ih (q1 :: qt) hv
        have hrne : jsPrefixList rest ≠ [] := by
          intro h0
          rw [h0] at hlen
          simp at hlen
        have hrw : jsPrefixList (q0 :: rest) = q0 :: jsPrefixList rest := by
          simp [jsPrefixList, hcm, hrne]
        rw [hrw]
        exact Nat.succ_le_succ hlen

/-- Modelled from the claim's words: "the literal prefix of the pattern up
to its first glob metacharacter". -/
def claimLiteralPre (pat : String) : String :=
  ⟨pat.data.takeWhile (fun c => !isGlobMeta c)⟩

/-- C3 counterexample: for the configured pattern `dist/sub*.js`, the
literal prefix up to the first glob metacharacter is `dist/sub`, but the
code's regex `^([^*{}]*)\/` requires the match to end in `/`, so the
stripped prefix is `dist/` — the claim fails on this pattern. -/
theorem C3_strip_cex :
    claimLiteralPre "dist/sub*.js" = "dist/sub" ∧
    strippedPre (some "dist/sub*.js") = "dist/" ∧
    strippedPre (some "dist/sub*.js") ≠ claimLiteralPre "dist/sub*.js" := by
  refine ⟨by decide, by decide, by decide⟩

/-- C3 (amended): the prefix stripped from asset names is the LONGEST
prefix of the configured pattern that contains no glob metacharacter
(`*`, `{`, `}`) and ends in `/` — empty when no such prefix exists and when
no pattern is configured. -/
theorem C3_strip_amended (fp : Option String) :
    (fp = none → strippedPre fp = "") ∧
    (∀ p, fp = some p →
      ((strippedPre fp).data ≠ [] → ValidSlashPre (strippedPre fp).data p.data) ∧
      (∀ q, ValidSlashPre q p.data → q.length ≤ (strippedPre fp).data.length)) := by
  constructor
  · intro h; rw [h]; rfl
  · intro p hp
    subst hp
    constructor
    · intro hne
      exact ⟨hne, jsPre_isPre p.data, fun c hc => jsPre_nonmeta p.data c hc,
        jsPre_last p.data hne⟩
    · intro q hq
      exact jsPre_max p.data q hq

/-- Witness for C3 at the concrete pattern `a/*`: the candidate `a/` is no
longer than the computed prefix. -/
theorem C3_strip_amended_witness :
    ("a/".data).length ≤ (strippedPre (some "a/*")).data.length :=
  ((C3_strip_amended (some "a/*")).2 "a/*" rfl).2 "a/".data (by decide)

/-- C4: for a code directory listing `foo.js` (a plain file) and `bar/` (a
directory containing `update.js`, `validate.js` and `other.js`), with the
remote client exposing the `bar` bucket and all reads and saves succeeding,
exactly the `saveCode` calls `(foo, module)`, `(bar, update)` and
`(bar, validate)` are made; `other.js` is read from disk but produces no
call, its derived handler type `other` being outside `codeTypes`. -/
theorem C4_code_calls (env : CodeEnv) (cd cfoo cu cv co : String)
    (h1 : env.listDir cd = some ["foo.js", "bar"])
    (h2 : env.statIsDir (pathJoin cd "foo.js") = some false)
    (h3 : env.statIsDir (pathJoin cd "bar") = some true)
    (h4 : env.dbBuckets "bar" = true)
    (h5 : env.listDir (pathJoin cd "bar") = some ["update.js", "validate.js", "other.js"])
    (h6 : env.readFile (pathJoin cd "foo.js") = some cfoo)
    (h7 : env.readFile (pathJoin (pathJoin cd "bar") "update.js") = some cu)
    (h8 : env.readFile (pathJoin (pathJoin cd "bar") "validate.js") = some cv)
    (h9 : env.readFile (pathJoin (pathJoin cd "bar") "other.js") = some co)
    (h10 : env.saveCode "foo" "module" cfoo = none)
    (h11 : env.saveCode "bar" "update" cu = none)
    (h12 : env.saveCode "bar" "validate" cv = none) :
    (uploadCodeDir env cd).calls
      = [⟨"foo", "module", cfoo⟩, ⟨"bar", "update", cu⟩, ⟨"bar", "validate", cv⟩] ∧
    pathJoin (pathJoin cd "bar") "other.js" ∈ (uploadCodeDir env cd).reads := by
  have ufoo : uploadCode env cd "foo" "module"
      = CodeOut.mk [pathJoin cd "foo.js"] [⟨"foo", "module", cfoo⟩] CodeRes.ok := by
    simp only [uploadCode, beq_self_eq_true, if_true,
      show ("foo" ++ ".js" : String) = "foo.js" from rfl, h6,
      show codeTypes.contains "module" = true from by decide, h10]
  have uupd : uploadCode env cd "bar" "update"
      = CodeOut.mk [pathJoin (pathJoin cd "bar") "update.js"] [⟨"bar", "update", cu⟩]
          CodeRes.ok := by
    simp only [uploadCode, show (("update" == "module") : Bool) = false from rfl,
      Bool.false_eq_true, if_false,
      show ("update" ++ ".js" : String) = "update.js" from rfl, h7,
      show codeTypes.contains "update" = true from by decide, if_true, h11]
  have uval : uploadCode env cd "bar" "validate"
      = CodeOut.mk [pathJoin (pathJoin cd "bar") "validate.js"] [⟨"bar", "validate", cv⟩]
          CodeRes.ok := by
    simp only [uploadCode, show (("validate" == "module") : Bool) = false from rfl,
      Bool.false_eq_true, if_false,
      show ("validate" ++ ".js" : String) = "validate.js" from rfl, h8,
      show codeTypes.contains "validate" = true from by decide, if_true, h12]
  have uoth : uploadCode env cd "bar" "other"
      = CodeOut.mk [pathJoin (pathJoin cd "bar") "other.js"] [] CodeRes.ok := by
    simp only [uploadCode, show (("other" == "module") : Bool) = false from rfl,
      Bool.false_eq_true, if_false,
      show ("other" ++ ".js" : String) = "other.js" from rfl, h9,
      show codeTypes.contains "other" = false from by decide]
  have hh : uploadHandler env cd "bar"
      = HandlerOut.mk
          [pathJoin (pathJoin cd "bar") "update.js", pathJoin (pathJoin cd "bar") "validate.js",
            pathJoin (pathJoin cd "bar") "other.js"]
          [⟨"bar", "update", cu⟩, ⟨"bar", "validate", cv⟩]
          [CodeLog.uploadedHandler "update" "bar", CodeLog.uploadedHandler "validate" "bar",
            CodeLog.uploadedHandler "other" "bar"]
          CodeRes.ok := by
    simp only [uploadHandler, h4, Bool.true_eq_false, if_false, h5, List.map_cons,
      List.map_nil, handlerFileStep,
      show stripAnyJs "update.js" = "update" from by decide,
      show stripAnyJs "validate.js" = "validate" from by decide,
      show stripAnyJs "other.js" = "other" from by decide,
      uupd, uval, uoth, firstFailure, List.filterMap_cons, List.filterMap_nil,
      List.flatten_cons, List.flatten_nil, List.append_nil, List.nil_append,
      List.cons_append]
  have pfoo : processEntry env cd "foo.js"
      = EntryOut.mk [pathJoin cd "foo.js"] [⟨"foo", "module", cfoo⟩]
          [CodeLog.uploadedModule "foo"] false := by
    simp only [processEntry, h2, show stripDotJs "foo.js" = "foo" from by decide, ufoo]
  have pbar : processEntry env cd "bar"
      = EntryOut.mk
          [pathJoin (pathJoin cd "bar") "update.js", pathJoin (pathJoin cd "bar") "validate.js",
            pathJoin (pathJoin cd "bar") "other.js"]
          [⟨"bar", "update", cu⟩, ⟨"bar", "validate", cv⟩]
          [CodeLog.uploadedHandler "update" "bar", CodeLog.uploadedHandler "validate" "bar",
            CodeLog.uploadedHandler "other" "bar"]
          false := by
    simp only [processEntry, h3, hh]
  have hmain : uploadCodeDir env cd
      = CodeDirOut.mk
          [pathJoin cd "foo.js", pathJoin (pathJoin cd "bar") "update.js",
            pathJoin (pathJoin cd "bar") "validate.js", pathJoin (pathJoin cd "bar") "other.js"]
          [⟨"foo", "module", cfoo⟩, ⟨"bar", "update", cu⟩, ⟨"bar", "validate", cv⟩]
          [CodeLog.uploadedModule "foo", CodeLog.uploadedHandler "update" "bar",
            CodeLog.uploadedHandler "validate" "bar", CodeLog.uploadedHandler "other" "bar"]
          false := by
    simp only [uploadCodeDir, h1, List.map_cons, List.map_nil, pfoo, pbar,
      List.flatten_cons, List.flatten_nil, List.append_nil, List.nil_append,
      List.cons_append, List.any_cons, List.any_nil, Bool.or_self, Bool.or_false]
  rw [hmain]
  exact ⟨rfl, by simp⟩

/-- Concrete environment witnessing C4's hypotheses. -/
def envC4 : CodeEnv :=
  { listDir := fun p =>
      if p = "code" then some ["foo.js", "bar"]
      else if p = "code/bar" then some ["update.js", "validate.js", "other.js"]
      else none
    statIsDir := fun p =>
      if p = "code/foo.js" then some false
      else if p = "code/bar" then some true
      else none
    readFile := fun p =>
      if p = "code/foo.js" then some "FOO"
      else if p = "code/bar/update.js" then some "UPD"
      else if p = "code/bar/validate.js" then some "VAL"
      else if p = "code/bar/other.js" then some "OTH"
      else none
    dbBuckets := fun b => b = "bar"
    saveCode := fun _ _ _ => none }

/-- Witness for C4 at the concrete environment `envC4`. -/
theorem C4_code_calls_witness :
    (uploadCodeDir envC4 "code").calls
      = [⟨"foo", "module", "FOO"⟩, ⟨"bar", "update", "UPD"⟩, ⟨"bar", "validate", "VAL"⟩] ∧
    pathJoin (pathJoin "code" "bar") "other.js" ∈ (uploadCodeDir envC4 "code").reads :=
  C4_code_calls envC4 "code" "FOO" "UPD" "VAL" "OTH" (by decide) (by decide) (by decide)
    (by decide) (by decide) (by decide) (by decide) (by decide) (by decide) (by decide)
    (by decide) (by decide)

/-- A console line produced by one directory entry appears in the
code-phase output. -/
theorem mem_codeDir_logs (env : CodeEnv) (cd : String) (files : List String) (f : String)
    (x : CodeLog) (hl : env.listDir cd = some files) (hf : f ∈ files)
    (hx : x ∈ (processEntry env cd f).logs) : x ∈ (uploadCodeDir env cd).logs := by
  simp only [uploadCodeDir, hl]
  exact List.mem_flatten.mpr
    ⟨(processEntry env cd f).logs,
      List.mem_map_of_mem _ (List.mem_map_of_mem _ hf), hx⟩

/-- A `saveCode` call made by one directory entry appears in the code-phase
output. -/
theorem mem_codeDir_calls (env : CodeEnv) (cd : String) (files : List String) (f : String)
    (c : SaveCall) (hl : env.listDir cd = some files) (hf : f ∈ files)
    (hc : c ∈ (processEntry env cd f).calls) : c ∈ (uploadCodeDir env cd).calls := by
  simp only [uploadCodeDir, hl]
  exact List.mem_flatten.mpr
    ⟨(processEntry env cd f).calls,
      List.mem_map_of_mem _ (List.mem_map_of_mem _ hf), hc⟩

/-- C5: item uploads are independent.  Each conjunct constrains the
environment only at the named item, so it holds no matter how the sibling
items behave: a failing module entry is logged with its module name and the
remote error reason; a succeeding module entry still produces its success
line and its `saveCode` call in the same output; a failing handler
directory is logged with the directory name and the reason; a succeeding
handler file inside a directory still produces its success line and its
call (even when a sibling handler's rejection fails the directory's
`Promise.all`); and in the asset phase a failing asset is reported `failed`
while a succeeding sibling still appears as `uploaded` in the same report. -/
theorem C5_item_independence :
    (∀ (env : CodeEnv) (cd : String) (files : List String) (f : String),
      env.listDir cd = some files → f ∈ files →
      (∀ r, env.statIsDir (pathJoin cd f) = some false →
        (uploadCode env cd (stripDotJs f) "module").result = CodeRes.err r →
        CodeLog.failedModule (stripDotJs f) r ∈ (uploadCodeDir env cd).logs) ∧
      (env.statIsDir (pathJoin cd f) = some false →
        (uploadCode env cd (stripDotJs f) "module").result = CodeRes.ok →
        CodeLog.uploadedModule (stripDotJs f) ∈ (uploadCodeDir env cd).logs ∧
        ∀ c ∈ (uploadCode env cd (stripDotJs f) "module").calls,
          c ∈ (uploadCodeDir env cd).calls) ∧
      (∀ r, env.statIsDir (pathJoin cd f) = some true →
        (uploadHandler env cd f).result = CodeRes.err r →
        CodeLog.failedHandlers f r ∈ (uploadCodeDir env cd).logs)) ∧
    (∀ (env : CodeEnv) (cd bucket : String) (fnames : List String) (g : String),
      env.dbBuckets bucket = true → env.listDir (pathJoin cd bucket) = some fnames →
      g ∈ fnames → (uploadCode env cd bucket (stripAnyJs g)).result = CodeRes.ok →
      CodeLog.uploadedHandler (stripAnyJs g) bucket ∈ (uploadHandler env cd bucket).logs ∧
      ∀ c ∈ (uploadCode env cd bucket (stripAnyJs g)).calls,
        c ∈ (uploadHandler env cd bucket).calls) ∧
    (∀ (fp : Option String) (matchFn : String → Bool) (bucket : String)
        (upl : String → String → Option String) (assets : List Asset) (a : Asset),
      a ∈ assets → includeAsset fp matchFn a.name = true →
      (∀ r, upl (remotePathFor fp bucket a.name) a.existsAt = some r →
        AssetRow.mk a.name bucket AssetStatus.failed none
          ∈ (uploadFiles fp matchFn bucket upl assets).rows) ∧
      (upl (remotePathFor fp bucket a.name) a.existsAt = none →
        AssetRow.mk a.name bucket AssetStatus.uploaded (some (remotePathFor fp bucket a.name))
          ∈ (uploadFiles fp matchFn bucket upl assets).rows)) := by
  refine ⟨?_, ?_, ?_⟩
  · intro env cd files f hl hf
    refine ⟨?_, ?_, ?_⟩
    · intro r hstat hres
      exact mem_codeDir_logs env cd files f _ hl hf (by simp [processEntry, hstat, hres])
    · intro hstat hres
      constructor
      · exact mem_codeDir_logs env cd files f _ hl hf (by simp [processEntry, hstat, hres])
      · intro c hc
        refine mem_codeDir_calls env cd files f c hl hf ?_
        have : (processEntry env cd f).calls
            = (uploadCode env cd (stripDotJs f) "module").calls := by
          simp [processEntry, hstat, hres]
        rw [this]
        exact hc
    · intro r hstat hres
      refine mem_codeDir_logs env cd files f _ hl hf ?_
      have : (processEntry env cd f).logs
          = (uploadHandler env cd f).logs ++ [CodeLog.failedHandlers f r] := by
        simp [processEntry, hstat, hres]
      rw [this]
      exact List.mem_append_right _ (List.mem_singleton.mpr rfl)
  · intro env cd bucket fnames g hdb hl hg hres
    have hstep : handlerFileStep env cd bucket g
        = (uploadCode env cd bucket (stripAnyJs g),
            some (CodeLog.uploadedHandler (stripAnyJs g) bucket)) := by
      simp [handlerFileStep, hres]
    constructor
    · simp only [uploadHandler, hdb, Bool.true_eq_false, if_false, hl]
      exact List.mem_filterMap.mpr
        ⟨handlerFileStep env cd bucket g, List.mem_map_of_mem _ hg, by rw [hstep]⟩
    · intro c hc
      simp only [uploadHandler, hdb, Bool.true_eq_false, if_false, hl]
      refine List.mem_flatten.mpr ⟨(handlerFileStep env cd bucket g).1.calls, ?_, ?_⟩
      · exact List.mem_map_of_mem _ (List.mem_map_of_mem _ hg)
      · rw [hstep]
        exact hc
  · intro fp matchFn bucket upl assets a ha hinc
    constructor
    · intro r hupl
      have : assetRow fp matchFn bucket upl a
          = AssetRow.mk a.name bucket AssetStatus.failed none := by
        simp [assetRow, hinc, hupl]
      exact this ▸ List.mem_map_of_mem _ ha
    · intro hupl
      have : assetRow fp matchFn bucket upl a
          = AssetRow.mk a.name bucket AssetStatus.uploaded
              (some (remotePathFor fp bucket a.name)) := by
        simp [assetRow, hinc, hupl]
      exact this ▸ List.mem_map_of_mem _ ha

/-- Concrete environment for the C5 witness: module `a.js` fails to save
(reason `boom`), module `b.js` saves fine. -/
def envC5 : CodeEnv :=
  { listDir := fun p => if p = "code" then some ["a.js", "b.js"] else none
    statIsDir := fun p =>
      if p = "code/a.js" then some false
      else if p = "code/b.js" then some false
      else none
    readFile := fun p =>
      if p = "code/a.js" then some "A"
      else if p = "code/b.js" then some "B"
      else none
    dbBuckets := fun _ => false
    saveCode := fun b _ _ => if b = "a" then some "boom" else none }

/-- Witness for C5: in the same run, the failing module `a` is logged with
its identity and reason while its sibling `b` still appears as uploaded. -/
theorem C5_item_independence_witness :
    CodeLog.failedModule "a" (some "boom") ∈ (uploadCodeDir envC5 "code").logs ∧
    CodeLog.uploadedModule "b" ∈ (uploadCodeDir envC5 "code").logs :=
  ⟨(C5_item_independence.1 envC5 "code" ["a.js", "b.js"] "a.js" (by decide) (by decide)).1
      (some "boom") (by decide) (by decide),
    ((C5_item_independence.1 envC5 "code" ["a.js", "b.js"] "b.js" (by decide)
        (by decide)).2.1 (by decide) (by decide)).1⟩

/-- C6: when the configured code directory cannot be listed, the code phase
produces exactly one aggregate failure line, `executeDeployment` does not
throw to the build trigger, and the asset sync phase still runs. -/
theorem C6_missing_dir (app cd b : String) (fp : Option String) (env : CodeEnv)
    (matchFn : String → Bool) (upl : String → String → Option String) (assets : List Asset)
    (hmiss : env.listDir cd = none) :
    (executeDeployment ⟨app, some b, fp, some cd⟩ env matchFn upl assets true).threw = false ∧
    (executeDeployment ⟨app, some b, fp, some cd⟩ env matchFn upl assets true).codeLogs
      = [CodeLog.failedCodeDir cd] ∧
    (executeDeployment ⟨app, some b, fp, some cd⟩ env matchFn upl assets true).assetTable
      = some (uploadFiles fp matchFn b upl assets) := by
  simp [executeDeployment, uploadCodeDir, hmiss]

/-- An environment whose every filesystem call rejects. -/
def envNone : CodeEnv :=
  { listDir := fun _ => none
    statIsDir := fun _ => none
    readFile := fun _ => none
    dbBuckets := fun _ => false
    saveCode := fun _ _ _ => none }

/-- Witness for C6 at a concrete run with a missing code directory. -/
theorem C6_missing_dir_witness :
    (executeDeployment ⟨"app", some "www", none, some "baqend"⟩ envNone (fun _ => true)
        (fun _ _ => none) [⟨"a", "p"⟩] true).threw = false ∧
    (executeDeployment ⟨"app", some "www", none, some "baqend"⟩ envNone (fun _ => true)
        (fun _ _ => none) [⟨"a", "p"⟩] true).codeLogs = [CodeLog.failedCodeDir "baqend"] ∧
    (executeDeployment ⟨"app", some "www", none, some "baqend"⟩ envNone (fun _ => true)
        (fun _ _ => none) [⟨"a", "p"⟩] true).assetTable
      = some (uploadFiles none (fun _ => true) "www" (fun _ _ => none) [⟨"a", "p"⟩]) :=
  C6_missing_dir "app" "baqend" "www" none envNone (fun _ => true) (fun _ _ => none)
    [⟨"a", "p"⟩] rfl

/-- C7: no transfer call is made before the connection promise resolves
ready — in every run trace, a transfer event is strictly preceded by the
`connReady` event — and if the connection never becomes ready the whole
deployment aborts with zero transfers and the failure surfaces once for the
run (a single rejection, no per-item rows or lines). -/
theorem C7_connection_gate (cfg : Config) (env : CodeEnv) (matchFn : String → Bool)
    (upl : String → String → Option String) (assets : List Asset) (connOk : Bool) :
    (connOk = false →
      (executeDeployment cfg env matchFn upl assets connOk).events = [Event.connFailed] ∧
      (executeDeployment cfg env matchFn upl assets connOk).saveCalls = [] ∧
      (executeDeployment cfg env matchFn upl assets connOk).uploadCalls = [] ∧
      (executeDeployment cfg env matchFn upl assets connOk).codeLogs = [] ∧
      (executeDeployment cfg env matchFn upl assets connOk).assetTable = none ∧
      (executeDeployment cfg env matchFn upl assets connOk).threw = true) ∧
    (∀ i, ∀ hi : i < (executeDeployment cfg env matchFn upl assets connOk).events.length,
      ((executeDeployment cfg env matchFn upl assets connOk).events.get ⟨i, hi⟩).isTransfer
          = true →
      ∃ j, ∃ hj : j < (executeDeployment cfg env matchFn upl assets connOk).events.length,
        j < i ∧ (executeDeployment cfg env matchFn upl assets connOk).events.get ⟨j, hj⟩
          = Event.connReady) := by
  cases connOk with
  | false =>
    constructor
    · intro _
      refine ⟨rfl, rfl, rfl, rfl, rfl, rfl⟩
    · intro i hi htr
      have hi2 : i < 1 := hi
      have hz : i = 0 := Nat.lt_one_iff.mp hi2
      subst hz
      have htr2 : Event.connFailed.isTransfer = true := htr
      exact absurd htr2 (by decide)
  | true =>
    constructor
    · intro h; exact absurd h (by simp)
    · intro i hi htr
      have he : ∃ tail, (executeDeployment cfg env matchFn upl assets true).events
          = Event.connReady :: tail := ⟨_, rfl⟩
      obtain ⟨tail, he⟩ := he
      cases i with
      | zero =>
        exfalso
        have : (executeDeployment cfg env matchFn upl assets true).events.get ⟨0, hi⟩
            = Event.connReady := by
          rw [List.get_of_eq he]
          rfl
        rw [this] at htr
        simp [Event.isTransfer] at htr
      | succ n =>
        refine ⟨0, ?_, Nat.succ_pos n, ?_⟩
        · rw [he]; exact Nat.succ_pos _
        · rw [List.get_of_eq he]
          rfl

/-- Witness for C7: with a failed connection, a concrete run makes zero
`saveCode` and zero `uploadFile` calls. -/
theorem C7_connection_gate_witness :
    (executeDeployment ⟨"app", some "www", none, none⟩ envNone (fun _ => true)
        (fun _ _ => none) [⟨"a", "p"⟩] false).saveCalls = [] ∧
    (executeDeployment ⟨"app", some "www", none, none⟩ envNone (fun _ => true)
        (fun _ _ => none) [⟨"a", "p"⟩] false).uploadCalls = [] :=
  ⟨((C7_connection_gate ⟨"app", some "www", none, none⟩ envNone (fun _ => true)
      (fun _ _ => none) [⟨"a", "p"⟩] false).1 rfl).2.1,
    ((C7_connection_gate ⟨"app", some "www", none, none⟩ envNone (fun _ => true)
      (fun _ _ => none) [⟨"a", "p"⟩] false).1 rfl).2.2.1⟩

/-- C8: constructing the plugin with `bucket: false` yields a run with zero
`uploadFile` calls and no asset table at all (neither header nor rows), and
constructing it with `codeDir` disabled (`false` or absent) yields a run
with zero `saveCode` calls. -/
theorem C8_disabled_flags (app : String) (fp : Option String) (cdArg : JsArg) (env : CodeEnv)
    (matchFn : String → Bool) (upl : String → String → Option String) (assets : List Asset)
    (connOk : Bool) :
    ((executeDeployment (mkConfig app JsArg.fls fp cdArg) env matchFn upl assets
        connOk).uploadCalls = [] ∧
      (executeDeployment (mkConfig app JsArg.fls fp cdArg) env matchFn upl assets
        connOk).assetTable = none) ∧
    (∀ bArg : JsArg, cdArg = JsArg.fls ∨ cdArg = JsArg.undef →
      (executeDeployment (mkConfig app bArg fp cdArg) env matchFn upl assets
        connOk).saveCalls = []) := by
  constructor
  · cases connOk with
    | false => exact ⟨rfl, rfl⟩
    | true =>
      constructor
      · simp [executeDeployment, mkConfig, mkBucket]
      · simp [executeDeployment, mkConfig, mkBucket]
  · intro bArg hcd
    have hnone : mkCodeDir cdArg = none := by
      rcases hcd with h | h <;> subst h <;> rfl
    cases connOk with
    | false => rfl
    | true => simp [executeDeployment, mkConfig, hnone]

/-- Witness for C8: a concrete run with `codeDir: false` makes no
`saveCode` calls. -/
theorem C8_disabled_flags_witness :
    (executeDeployment (mkConfig "app" JsArg.undef none JsArg.fls) envNone (fun _ => true)
        (fun _ _ => none) [⟨"a", "p"⟩] true).saveCalls = [] :=
  (C8_disabled_flags "app" none JsArg.fls envNone (fun _ => true) (fun _ _ => none)
      [⟨"a", "p"⟩] true).2 JsArg.undef (Or.inl rfl)

/-- The maximum of the asset-name lengths of a manifest (0 when empty). -/
def maxNameLen (files : List Asset) : Nat :=
  (files.map (fun a => a.name.length)).foldr max 0

/-- Folding `max` from the left over a list equals `max` of the seed with
the list's maximum. -/
theorem foldl_max_eq (xs : List Nat) : ∀ a : Nat, xs.foldl max a = max a (xs.foldr max 0) := by
  induction xs with
  | nil => intro a; simp
  | cons x t ih =>
    intro a
    simp only [List.foldl_cons, List.foldr_cons, ih, Nat.max_assoc]

/-- C9: the report's first column width is the maximum of all asset-name
lengths with floor 5, and the bucket column width is the maximum of the
bucket-name length with floor 6; in particular asset names of lengths 3 and
12 with bucket `www` give widths 12 and 6. -/
theorem C9_report_widths :
    (∀ (fp : Option String) (matchFn : String → Bool) (bucket : String)
        (upl : String → String → Option String) (files : List Asset),
      (uploadFiles fp matchFn bucket upl files).firstColWidth = max 5 (maxNameLen files) ∧
      (uploadFiles fp matchFn bucket upl files).bucketColWidth = max bucket.length 6) ∧
    (uploadFiles none (fun _ => true) "www" (fun _ _ => none)
        [⟨"abc", "x"⟩, ⟨"abcdefghijkl", "y"⟩]).firstColWidth = 12 ∧
    (uploadFiles none (fun _ => true) "www" (fun _ _ => none)
        [⟨"abc", "x"⟩, ⟨"abcdefghijkl", "y"⟩]).bucketColWidth = 6 := by
  refine ⟨fun fp matchFn bucket upl files => ⟨?_, rfl⟩, by decide, by decide⟩
  show files.foldl (fun last a => max last a.name.length) 5 = _
  rw [show (fun (last : Nat) (a : Asset) => max last a.name.length)
      = fun last a => max last ((fun a : Asset => a.name.length) a) from rfl,
    ← List.foldl_map, foldl_max_eq]
  rfl

/-- C10: the two suffix-stripping rules differ, characterized on EVERY
name.  The module-name rule (escaped dot, `/\.js$/`) removes the final
three characters exactly when the name ends in the literal `.js`, keeping
every other name whole (so `foojs` stays `foojs`).  The handler-type rule
(unescaped dot, `/.js$/`) removes the final three characters whenever the
name ends in any single character followed by `js` — with the one proviso
the unescaped dot itself carries, that the character is not a line
terminator — and keeps every other name whole; so `updatejs` yields
`updat`, not `updatejs`, while `foojs` yields `fo` under this rule but is
kept whole by the module rule. -/
theorem C10_suffix_rules :
    (∀ s : String, ['.', 'j', 's'].isSuffixOf s.data = true →
      stripDotJs s = String.mk (s.data.take (s.data.length - 3))) ∧
    (∀ s : String, ['.', 'j', 's'].isSuffixOf s.data = false → stripDotJs s = s) ∧
    (∀ s : String, 3 ≤ s.data.length → ['j', 's'].isSuffixOf s.data = true →
      isLineTerm (s.data.getD (s.data.length - 3) '.') = false →
      stripAnyJs s = String.mk (s.data.take (s.data.length - 3))) ∧
    (∀ s : String, ¬(3 ≤ s.data.length ∧ ['j', 's'].isSuffixOf s.data = true ∧
      isLineTerm (s.data.getD (s.data.length - 3) '.') = false) → stripAnyJs s = s) ∧
    stripDotJs "foojs" = "foojs" ∧ stripAnyJs "foojs" = "fo" ∧
    stripAnyJs "updatejs" = "updat" ∧
    stripDotJs "update.js" = "update" ∧ stripAnyJs "update.js" = "update" := by
  refine ⟨?_, ?_, ?_, ?_, by decide, by decide, by decide, by decide, by decide⟩
  · intro s h
    rw [stripDotJs, if_pos h]
  · intro s h
    simp [stripDotJs, h]
  · intro s h1 h2 h3
    rw [stripAnyJs, if_pos ⟨h1, h2, h3⟩]
  · intro s h
    rw [stripAnyJs, if_neg h]

/-- Witness for C10 exercising each universal rule at a concrete name:
`m.js` is clipped by the module rule, `abcjs` is clipped by the handler
rule, and `hello` is kept whole by the handler rule. -/
theorem C10_suffix_rules_witness :
    stripDotJs "m.js" = String.mk ("m.js".data.take ("m.js".data.length - 3)) ∧
    stripAnyJs "abcjs" = String.mk ("abcjs".data.take ("abcjs".data.length - 3)) ∧
    stripAnyJs "hello" = "hello" :=
  ⟨C10_suffix_rules.1 "m.js" (by decide),
    C10_suffix_rules.2.2.1 "abcjs" (by decide) (by decide) (by decide),
    C10_suffix_rules.2.2.2.1 "hello" (by decide)⟩

example : strippedPre (some "dist/**") = "dist/" := by decide
example : strippedPre (some "dist/sub*.js") = "dist/" := by decide
example : strippedPre (some "dist") = "" := by decide
example : strippedPre (some "?/**") = "?/" := by decide
example : jsReplaceFirst "foo/dist/bar" "dist/" = "foo/bar" := by decide
example : jsReplaceFirst "dist/x" "dist/" = "x" := by decide
example : stripDotJs "foojs" = "foojs" := by decide
example : stripAnyJs "updatejs" = "updat" := by decide
